import Mathlib

/-!
Verification of the micro-benchmark harness in `src/comparador.js`.

The `BenchmarkRunner` class is embedded shallowly: its pure computations
(`processFileContent`, `formatBytes`, the summary's `reduce`-based selections
and ratio computations) become Lean functions on `Nat`/`Int`/`ℚ` and character
lists, and its interaction with the host (file access, unit execution, memory
and clock readings, the `require` cache) becomes explicit data threaded through
the functions.  JavaScript numbers are modelled as exact rationals, `BigInt`
nanosecond readings as naturals, byte counts as naturals, and memory deltas as
integers.
-/

namespace Comparador

/-- Snapshot of `process.memoryUsage()`: `rss`, `heapTotal`, `heapUsed`, in bytes. -/
structure MemoryUsage where
  rss : Nat
  heapTotal : Nat
  heapUsed : Nat
  deriving DecidableEq

/-- The `memoryDiff` record of `runBenchmark` (lines 40-44): per-field
`end - start` differences, which may be negative. -/
structure MemoryDiff where
  rss : Int
  heapTotal : Int
  heapUsed : Int
  deriving DecidableEq

/-- JavaScript `string.split(sep)` for a one-character separator, over the
character list; the accumulator holds the current (reversed) segment. -/
def splitCharAux (sep : Char) : List Char → List Char → List (List Char)
  | [], acc => [acc.reverse]
  | c :: rest, acc =>
    if c = sep then acc.reverse :: splitCharAux sep rest []
    else splitCharAux sep rest (c :: acc)

/-- `conteudo.split(sep)` as a list of lines (each a character list). -/
def splitOnChar (sep : Char) (s : String) : List (List Char) :=
  splitCharAux sep s.data []

/-- JavaScript `line.trim()`: drop leading and trailing whitespace. -/
def trimLine (l : List Char) : List Char :=
  ((l.dropWhile Char.isWhitespace).reverse.dropWhile Char.isWhitespace).reverse

/-- `path.basename`: the last slash-separated component of the path. -/
def basename (p : String) : String :=
  String.mk ((splitCharAux '/' p.data []).getLastD [])

/-- Number of UTF-16 code units of a character; JavaScript `string.length`
counts these (line 112, `conteudo.length`). -/
def charUtf16Units (c : Char) : Nat :=
  if c.toNat ≤ 0xFFFF then 1 else 2

/-- Number of bytes of the character's UTF-8 encoding;
`Buffer.byteLength(conteudo, 'utf8')` (line 113) sums these. -/
def charUtf8Bytes (c : Char) : Nat :=
  if c.toNat ≤ 0x7F then 1
  else if c.toNat ≤ 0x7FF then 2
  else if c.toNat ≤ 0xFFFF then 3
  else 4

/-- JavaScript `conteudo.length`: UTF-16 code-unit count of the string. -/
def utf16Length (s : String) : Nat :=
  (s.data.map charUtf16Units).sum

/-- `Buffer.byteLength(conteudo, 'utf8')`: UTF-8 encoded byte length. -/
def utf8ByteLength (s : String) : Nat :=
  (s.data.map charUtf8Bytes).sum

/-- The file-statistics record produced by `processFileContent` (lines 107-114). -/
structure FileStats where
  arquivo : String
  totalLinhas : Nat
  linhasCodigo : Nat
  linhasVazias : Nat
  caracteres : Nat
  tamanhoArquivo : Nat
  deriving DecidableEq

/-- `processFileContent` (lines 102-124): split on the newline character,
count the lines that are empty after trimming, and derive the remaining
statistics.  `linhasCodigo` is `linhas.length - linhasVazias` as in the source. -/
def processFileContent (conteudo : String) (arquivo : String) : FileStats :=
  let linhas := splitOnChar '\n' conteudo
  let linhasVazias := (linhas.filter (fun linha => decide (trimLine linha = []))).length
  let linhasCodigo := linhas.length - linhasVazias
  { arquivo := basename arquivo
    totalLinhas := linhas.length
    linhasCodigo := linhasCodigo
    linhasVazias := linhasVazias
    caracteres := utf16Length conteudo
    tamanhoArquivo := utf8ByteLength conteudo }

/-- `analyzeFile` (lines 83-94): `readFileSync` either yields the content or
throws; the catch block turns a failed read into `null` (`none`), a successful
read into `processFileContent`. -/
def analyzeFile (readContent : Option String) (arquivo : String) : Option FileStats :=
  readContent.map (fun conteudo => processFileContent conteudo arquivo)

/-- The unit table of `formatBytes` (line 135). -/
def sizes : List String :=
  ["B", "KB", "MB", "GB"]

/-- `x.toFixed(2)` as an exact rational: round `q` to two decimal places.
`round` rounds ties up, matching `toFixed`'s pick-the-larger rule. -/
def round2 (q : ℚ) : ℚ :=
  ((round (q * 100) : ℤ) : ℚ) / 100

/-- The pieces of the string produced by `formatBytes`: the two-decimal
mantissa and the unit text that follows it. -/
structure FormattedBytes where
  value : ℚ
  unit : String
  deriving DecidableEq

/-- `formatBytes` (lines 131-139): zero renders as `0 B`; otherwise
`i = floor(log(|bytes|) / log(1024))` (exact-real logarithm, i.e. `Nat.log`)
indexes the unit table, and the mantissa is `bytes / 1024^i` to two decimals.
An out-of-range index makes JavaScript render the unit as `undefined`,
modelled by `List.getD` with that default. -/
def formatBytes (bytes : Int) : FormattedBytes :=
  if bytes = 0 then { value := 0, unit := "B" }
  else
    let i := Nat.log 1024 bytes.natAbs
    { value := round2 ((bytes : ℚ) / (1024 : ℚ) ^ i), unit := sizes.getD i "undefined" }

/-- One entry of `this.results` (lines 53-59). -/
structure BenchmarkResult where
  name : String
  executionTime : ℚ
  memory : MemoryUsage
  memoryDiff : MemoryDiff
  fileStats : Option FileStats
  deriving DecidableEq

/-- One `runBenchmark` invocation's interaction with the host: whether
`fs.access` resolves, whether the `require`d unit throws, the two
`process.hrtime.bigint()` readings (nanoseconds), the two
`process.memoryUsage()` snapshots, and what `readFileSync` returns during the
later file analysis (`none` models a throw). -/
structure ExecEnv where
  accessOk : Bool
  execThrows : Bool
  startNs : Nat
  endNs : Nat
  startMemory : MemoryUsage
  endMemory : MemoryUsage
  readContent : Option String
  deriving DecidableEq

/-- `runBenchmark` (lines 14-65): the surrounding try/catch means a failed
access check or a throwing unit reaches the catch block and appends nothing;
otherwise the execution time is `Number(end - start) / 1000000` milliseconds,
the memory diff is `end - start` per field, the file analysis (which traps its
own errors) fills `fileStats`, and exactly one result is appended. -/
def runBenchmark (env : ExecEnv) (name filePath : String)
    (results : List BenchmarkResult) : List BenchmarkResult :=
  if env.accessOk = false then results
  else if env.execThrows = true then results
  else
    let executionTime : ℚ := ((env.endNs : ℚ) - (env.startNs : ℚ)) / 1000000
    let memoryDiff : MemoryDiff :=
      { rss := (env.endMemory.rss : Int) - (env.startMemory.rss : Int)
        heapTotal := (env.endMemory.heapTotal : Int) - (env.startMemory.heapTotal : Int)
        heapUsed := (env.endMemory.heapUsed : Int) - (env.startMemory.heapUsed : Int) }
    let fileStats := analyzeFile env.readContent filePath
    results ++ [{ name := name, executionTime := executionTime, memory := env.endMemory,
                  memoryDiff := memoryDiff, fileStats := fileStats }]

/-- The host's `require` machinery: which resolved paths are cached, and how
many times each path's top-level code has been evaluated so far. -/
structure ModuleState where
  cache : List String
  evalCount : String → Nat

/-- `require(p)`: a cached path returns its cached evaluation without running
any top-level code again; an uncached path runs the unit's top-level code once
more and enters the cache. -/
def requireLoad (m : ModuleState) (p : String) : ModuleState :=
  if p ∈ m.cache then m
  else
    { cache := p :: m.cache
      evalCount := fun q => if q = p then m.evalCount q + 1 else m.evalCount q }

/-- Lines 27-31: `delete require.cache[require.resolve(path)]` followed by
`require(path)` — the cache entry for the path is removed before loading. -/
def freshRequire (m : ModuleState) (p : String) : ModuleState :=
  requireLoad { m with cache := m.cache.filter (fun q => decide (q ≠ p)) } p

/-- Lines 165-167: `results.reduce((prev, curr) => prev.executionTime <
curr.executionTime ? prev : curr)`; `reduce` without an initial value starts
from the first element, modelled by the head/tail split. -/
def selectFastest (h : BenchmarkResult) (t : List BenchmarkResult) : BenchmarkResult :=
  t.foldl (fun prev curr => if prev.executionTime < curr.executionTime then prev else curr) h

/-- Lines 170-172: the same `reduce` on `memory.heapUsed`. -/
def selectMostMemoryEfficient (h : BenchmarkResult) (t : List BenchmarkResult) :
    BenchmarkResult :=
  t.foldl (fun prev curr => if prev.memory.heapUsed < curr.memory.heapUsed then prev else curr) h

/-- What the per-result block of the summary renders (lines 174-185). -/
structure SummaryEntry where
  name : String
  time : ℚ
  speedRatio : ℚ
  heapUsed : Nat
  memoryRatio : ℚ
  codeLines : Option Nat
  deriving DecidableEq

/-- Lines 175-184: the ratios are the entry's figures divided by the selected
winners' figures, each put through `toFixed(2)`; the code-line count is shown
only when `fileStats` is present. -/
def mkSummaryEntry (fastest mostMemoryEfficient result : BenchmarkResult) : SummaryEntry :=
  { name := result.name
    time := result.executionTime
    speedRatio := round2 (result.executionTime / fastest.executionTime)
    heapUsed := result.memory.heapUsed
    memoryRatio :=
      round2 ((result.memory.heapUsed : ℚ) / (mostMemoryEfficient.memory.heapUsed : ℚ))
    codeLines := result.fileStats.map (fun fs => fs.linhasCodigo) }

/-- The observable output of `showSummary`: either the informational
`Nenhum benchmark foi executado` message, or the ranked comparison with the
closing fastest / most-memory-efficient names. -/
inductive SummaryReport where
  | noBenchmarks
  | comparison (entries : List SummaryEntry) (fastestName : String)
      (mostMemoryEfficientName : String)
  deriving DecidableEq

/-- `showSummary` (lines 154-189): empty results short-circuit to the
informational report; otherwise the two `reduce` selections run and every
result is rendered with its ratios. -/
def showSummary (results : List BenchmarkResult) : SummaryReport :=
  match results with
  | [] => .noBenchmarks
  | h :: t =>
    let fastest := selectFastest h t
    let mostMemoryEfficient := selectMostMemoryEfficient h t
    .comparison ((h :: t).map (mkSummaryEntry fastest mostMemoryEfficient))
      fastest.name mostMemoryEfficient.name

/-- Stated from the spec's words, for comparison with the code's selection:
the first entry in session order whose value is minimal. -/
def firstMinBy (f : BenchmarkResult → ℚ) (l : List BenchmarkResult) : Option BenchmarkResult :=
  l.find? (fun r => decide (∀ s ∈ l, f r ≤ f s))

/-- Two results with equal execution times and equal heap usage, to exercise
the tie-breaking of the summary's selections. -/
def resultTieA : BenchmarkResult :=
  { name := "A", executionTime := 1, memory := { rss := 0, heapTotal := 0, heapUsed := 1000 },
    memoryDiff := { rss := 0, heapTotal := 0, heapUsed := 0 }, fileStats := none }

def resultTieB : BenchmarkResult :=
  { name := "B", executionTime := 1, memory := { rss := 0, heapTotal := 0, heapUsed := 1000 },
    memoryDiff := { rss := 0, heapTotal := 0, heapUsed := 0 }, fileStats := none }

/-- The spec's worked summary example: A takes 100 ms on 1000 heap bytes, B
takes 50 ms on 2000 heap bytes. -/
def resultSpecA : BenchmarkResult :=
  { name := "A", executionTime := 100, memory := { rss := 0, heapTotal := 0, heapUsed := 1000 },
    memoryDiff := { rss := 0, heapTotal := 0, heapUsed := 0 }, fileStats := none }

def resultSpecB : BenchmarkResult :=
  { name := "B", executionTime := 50, memory := { rss := 0, heapTotal := 0, heapUsed := 2000 },
    memoryDiff := { rss := 0, heapTotal := 0, heapUsed := 0 }, fileStats := none }

/-- An environment whose access check fails. -/
def envAccessFail : ExecEnv :=
  { accessOk := false, execThrows := false, startNs := 0, endNs := 0,
    startMemory := { rss := 0, heapTotal := 0, heapUsed := 0 },
    endMemory := { rss := 0, heapTotal := 0, heapUsed := 0 }, readContent := none }

/-- An environment where execution succeeds but the later file read throws. -/
def envReadFail : ExecEnv :=
  { accessOk := true, execThrows := false, startNs := 1000000, endNs := 6000000,
    startMemory := { rss := 1, heapTotal := 2, heapUsed := 3 },
    endMemory := { rss := 4, heapTotal := 5, heapUsed := 6 }, readContent := none }

/-! ## Helper lemmas -/

/-- The `reduce` of lines 165-167 selects a member of the result list whose
execution time is minimal, and on ties the selected entry is the last minimal
one: the filtered list of minimal entries ends with it. -/
theorem selectFastest_spec (h : BenchmarkResult) (t : List BenchmarkResult) :
    selectFastest h t ∈ h :: t ∧
    (∀ r ∈ h :: t, (selectFastest h t).executionTime ≤ r.executionTime) ∧
    ((h :: t).filter
        (fun r => decide (r.executionTime = (selectFastest h t).executionTime))).getLast?
      = some (selectFastest h t) := by
  induction t using List.reverseRecOn with
  | nil =>
    refine ⟨List.mem_singleton_self h, ?_, ?_⟩
    · intro r hr
      rw [List.mem_singleton] at hr
      subst hr
      exact le_refl _
    · simp [selectFastest]
  | append_singleton l a ih =>
    obtain ⟨hmem, hmin, hlast⟩ := ih
    have hstep : selectFastest h (l ++ [a])
        = if (selectFastest h l).executionTime < a.executionTime
          then selectFastest h l else a := by
      simp [selectFastest, List.foldl_append]
    have hcons : h :: (l ++ [a]) = (h :: l) ++ [a] := rfl
    by_cases hfa : (selectFastest h l).executionTime < a.executionTime
    · rw [hstep, if_pos hfa, hcons]
      refine ⟨List.mem_append_left _ hmem, ?_, ?_⟩
      · intro r hr
        rcases List.mem_append.mp hr with hr | hr
        · exact hmin r hr
        · rw [List.mem_singleton] at hr
          subst hr
          exact le_of_lt hfa
      · have hne : ¬ (a.executionTime = (selectFastest h l).executionTime) := ne_of_gt hfa
        have hnil : List.filter
            (fun r => decide (r.executionTime = (selectFastest h l).executionTime)) [a] = [] := by
          simp [hne]
        rw [List.filter_append, hnil, List.append_nil]
        exact hlast
    · rw [hstep, if_neg hfa, hcons]
      have hle : a.executionTime ≤ (selectFastest h l).executionTime := le_of_not_lt hfa
      refine ⟨List.mem_append_right _ (List.mem_singleton_self a), ?_, ?_⟩
      · intro r hr
        rcases List.mem_append.mp hr with hr | hr
        · exact le_trans hle (hmin r hr)
        · rw [List.mem_singleton] at hr
          subst hr
          exact le_refl _
      · have hone : List.filter
            (fun r => decide (r.executionTime = a.executionTime)) [a] = [a] := by
          simp
        rw [List.filter_append, hone, List.getLast?_concat]

/-- The `reduce` of lines 170-172 likewise: minimal `memory.heapUsed`, last
minimal entry on ties. -/
theorem selectMostMemoryEfficient_spec (h : BenchmarkResult) (t : List BenchmarkResult) :
    selectMostMemoryEfficient h t ∈ h :: t ∧
    (∀ r ∈ h :: t,
      (selectMostMemoryEfficient h t).memory.heapUsed ≤ r.memory.heapUsed) ∧
    ((h :: t).filter
        (fun r =>
          decide (r.memory.heapUsed = (selectMostMemoryEfficient h t).memory.heapUsed))).getLast?
      = some (selectMostMemoryEfficient h t) := by
  induction t using List.reverseRecOn with
  | nil =>
    refine ⟨List.mem_singleton_self h, ?_, ?_⟩
    · intro r hr
      rw [List.mem_singleton] at hr
      subst hr
      exact le_refl _
    · simp [selectMostMemoryEfficient]
  | append_singleton l a ih =>
    obtain ⟨hmem, hmin, hlast⟩ := ih
    have hstep : selectMostMemoryEfficient h (l ++ [a])
        = if (selectMostMemoryEfficient h l).memory.heapUsed < a.memory.heapUsed
          then selectMostMemoryEfficient h l else a := by
      simp [selectMostMemoryEfficient, List.foldl_append]
    have hcons : h :: (l ++ [a]) = (h :: l) ++ [a] := rfl
    by_cases hfa : (selectMostMemoryEfficient h l).memory.heapUsed < a.memory.heapUsed
    · rw [hstep, if_pos hfa, hcons]
      refine ⟨List.mem_append_left _ hmem, ?_, ?_⟩
      · intro r hr
        rcases List.mem_append.mp hr with hr | hr
        · exact hmin r hr
        · rw [List.mem_singleton] at hr
          subst hr
          exact le_of_lt hfa
      · have hne : ¬ (a.memory.heapUsed = (selectMostMemoryEfficient h l).memory.heapUsed) :=
          ne_of_gt hfa
        have hnil : List.filter
            (fun r =>
              decide (r.memory.heapUsed = (selectMostMemoryEfficient h l).memory.heapUsed))
            [a] = [] := by
          simp [hne]
        rw [List.filter_append, hnil, List.append_nil]
        exact hlast
    · rw [hstep, if_neg hfa, hcons]
      have hle : a.memory.heapUsed ≤ (selectMostMemoryEfficient h l).memory.heapUsed :=
        le_of_not_lt hfa
      refine ⟨List.mem_append_right _ (List.mem_singleton_self a), ?_, ?_⟩
      · intro r hr
        rcases List.mem_append.mp hr with hr | hr
        · exact le_trans hle (hmin r hr)
        · rw [List.mem_singleton] at hr
          subst hr
          exact le_refl _
      · have hone : List.filter
            (fun r => decide (r.memory.heapUsed = a.memory.heapUsed)) [a] = [a] := by
          simp
        rw [List.filter_append, hone, List.getLast?_concat]

/-- Splitting always yields at least one segment. -/
theorem splitCharAux_length_pos (sep : Char) (l acc : List Char) :
    1 ≤ (splitCharAux sep l acc).length := by
  induction l generalizing acc with
  | nil => simp [splitCharAux]
  | cons c rest ih =>
    by_cases hc : c = sep
    · simp [splitCharAux, hc]
    · simpa [splitCharAux, hc] using ih (c :: acc)

/-- Rounding to two decimals is at least one on inputs at least one. -/
theorem one_le_round2 {q : ℚ} (hq : 1 ≤ q) : 1 ≤ round2 q := by
  have hr : (100 : ℤ) ≤ round (q * 100) := by
    rw [round_eq, Int.le_floor]
    push_cast
    linarith
  simp only [round2]
  rw [one_le_div (by norm_num : (0 : ℚ) < 100)]
  exact_mod_cast hr

/-- Rounding one to two decimals gives exactly one. -/
theorem round2_one : round2 1 = 1 := by
  have h : round ((1 : ℚ) * 100) = 100 := by
    rw [round_eq, Int.floor_eq_iff]
    norm_num
  simp only [round2]
  rw [h]
  norm_num

/-- A UTF-8 encoded character is at least as many bytes as its UTF-16 unit count. -/
theorem charUtf16Units_le_charUtf8Bytes (c : Char) :
    charUtf16Units c ≤ charUtf8Bytes c := by
  simp only [charUtf16Units, charUtf8Bytes]
  split_ifs <;> omega

/-- An ASCII character is one UTF-8 byte and one UTF-16 unit. -/
theorem char_ascii_sizes {c : Char} (hc : c.toNat ≤ 0x7F) :
    charUtf8Bytes c = 1 ∧ charUtf16Units c = 1 := by
  constructor
  · simp [charUtf8Bytes, hc]
  · have h16 : c.toNat ≤ 0xFFFF := le_trans hc (by norm_num)
    simp [charUtf16Units, h16]

/-! ## Claims -/

/-- C1 (amended): the summary's selections pick an entry with minimum
`executionTime` (resp. minimum `memory.heapUsed`), but on ties the selected
entry is the **last** such entry in session order, not the first: the list of
entries attaining the minimum ends with the selected one. -/
theorem C1_selectionTieBreak (h : BenchmarkResult) (t : List BenchmarkResult) :
    (∀ r ∈ h :: t, (selectFastest h t).executionTime ≤ r.executionTime) ∧
    ((h :: t).filter
        (fun r => decide (r.executionTime = (selectFastest h t).executionTime))).getLast?
      = some (selectFastest h t) ∧
    (∀ r ∈ h :: t,
      (selectMostMemoryEfficient h t).memory.heapUsed ≤ r.memory.heapUsed) ∧
    ((h :: t).filter
        (fun r =>
          decide (r.memory.heapUsed = (selectMostMemoryEfficient h t).memory.heapUsed))).getLast?
      = some (selectMostMemoryEfficient h t) := by
  obtain ⟨-, hFmin, hFlast⟩ := selectFastest_spec h t
  obtain ⟨-, hMmin, hMlast⟩ := selectMostMemoryEfficient_spec h t
  exact ⟨hFmin, hFlast, hMmin, hMlast⟩

/-- C1 counterexample: with two entries tied in both dimensions, the first
minimal entry in session order is `resultTieA`, but both `reduce` selections
return `resultTieB` — the claim's first-entry tie-break is false on the code. -/
theorem C1_counterexample :
    resultTieA.executionTime = resultTieB.executionTime ∧
    resultTieA.memory.heapUsed = resultTieB.memory.heapUsed ∧
    firstMinBy (fun r => r.executionTime) [resultTieA, resultTieB] = some resultTieA ∧
    firstMinBy (fun r => (r.memory.heapUsed : ℚ)) [resultTieA, resultTieB] = some resultTieA ∧
    selectFastest resultTieA [resultTieB] = resultTieB ∧
    selectMostMemoryEfficient resultTieA [resultTieB] = resultTieB ∧
    resultTieB ≠ resultTieA := by
  decide

/-- C2: when all execution times and heap figures are positive, the summary
renders each entry's ratios as the entry's figure divided by the selected
winner's figure rounded to two decimals (first conjunct, via
`mkSummaryEntry`), every ratio is at least `1.00`, and the entries generated
from the two winners have ratio exactly `1.00` in their dimension. -/
theorem C2_summaryRatios (h : BenchmarkResult) (t : List BenchmarkResult)
    (hpos : ∀ r ∈ h :: t, 0 < r.executionTime ∧ 0 < r.memory.heapUsed) :
    showSummary (h :: t)
      = SummaryReport.comparison
          ((h :: t).map (mkSummaryEntry (selectFastest h t) (selectMostMemoryEfficient h t)))
          (selectFastest h t).name (selectMostMemoryEfficient h t).name ∧
    (∀ e ∈ (h :: t).map (mkSummaryEntry (selectFastest h t) (selectMostMemoryEfficient h t)),
        1 ≤ e.speedRatio ∧ 1 ≤ e.memoryRatio) ∧
    (∃ e ∈ (h :: t).map (mkSummaryEntry (selectFastest h t) (selectMostMemoryEfficient h t)),
        e.name = (selectFastest h t).name ∧ e.speedRatio = 1) ∧
    (∃ e ∈ (h :: t).map (mkSummaryEntry (selectFastest h t) (selectMostMemoryEfficient h t)),
        e.name = (selectMostMemoryEfficient h t).name ∧ e.memoryRatio = 1) := by
  obtain ⟨hFmem, hFmin, -⟩ := selectFastest_spec h t
  obtain ⟨hMmem, hMmin, -⟩ := selectMostMemoryEfficient_spec h t
  have hFpos : 0 < (selectFastest h t).executionTime := (hpos _ hFmem).1
  have hMpos : 0 < (selectMostMemoryEfficient h t).memory.heapUsed := (hpos _ hMmem).2
  have hMq : (0 : ℚ) < ((selectMostMemoryEfficient h t).memory.heapUsed : ℚ) := by
    exact_mod_cast hMpos
  refine ⟨rfl, ?_, ?_, ?_⟩
  · intro e he
    rw [List.mem_map] at he
    obtain ⟨r, hr, rfl⟩ := he
    simp only [mkSummaryEntry]
    constructor
    · apply one_le_round2
      rw [one_le_div hFpos]
      exact hFmin r hr
    · apply one_le_round2
      rw [one_le_div hMq]
      exact_mod_cast hMmin r hr
  · refine ⟨mkSummaryEntry (selectFastest h t) (selectMostMemoryEfficient h t)
        (selectFastest h t),
      List.mem_map_of_mem _ hFmem, rfl, ?_⟩
    show round2 ((selectFastest h t).executionTime / (selectFastest h t).executionTime) = 1
    rw [div_self (ne_of_gt hFpos)]
    exact round2_one
  · refine ⟨mkSummaryEntry (selectFastest h t) (selectMostMemoryEfficient h t)
        (selectMostMemoryEfficient h t),
      List.mem_map_of_mem _ hMmem, rfl, ?_⟩
    show round2 (((selectMostMemoryEfficient h t).memory.heapUsed : ℚ)
        / ((selectMostMemoryEfficient h t).memory.heapUsed : ℚ)) = 1
    rw [div_self (ne_of_gt hMq)]
    exact round2_one

theorem C2_summaryRatios_witness :
    (∀ r ∈ resultSpecA :: [resultSpecB], 0 < r.executionTime ∧ 0 < r.memory.heapUsed) ∧
    (showSummary (resultSpecA :: [resultSpecB])
        = SummaryReport.comparison
            ((resultSpecA :: [resultSpecB]).map
              (mkSummaryEntry (selectFastest resultSpecA [resultSpecB])
                (selectMostMemoryEfficient resultSpecA [resultSpecB])))
            (selectFastest resultSpecA [resultSpecB]).name
            (selectMostMemoryEfficient resultSpecA [resultSpecB]).name ∧
      (∀ e ∈ (resultSpecA :: [resultSpecB]).map
            (mkSummaryEntry (selectFastest resultSpecA [resultSpecB])
              (selectMostMemoryEfficient resultSpecA [resultSpecB])),
          1 ≤ e.speedRatio ∧ 1 ≤ e.memoryRatio) ∧
      (∃ e ∈ (resultSpecA :: [resultSpecB]).map
            (mkSummaryEntry (selectFastest resultSpecA [resultSpecB])
              (selectMostMemoryEfficient resultSpecA [resultSpecB])),
          e.name = (selectFastest resultSpecA [resultSpecB]).name ∧ e.speedRatio = 1) ∧
      (∃ e ∈ (resultSpecA :: [resultSpecB]).map
            (mkSummaryEntry (selectFastest resultSpecA [resultSpecB])
              (selectMostMemoryEfficient resultSpecA [resultSpecB])),
          e.name = (selectMostMemoryEfficient resultSpecA [resultSpecB]).name ∧
            e.memoryRatio = 1)) :=
  ⟨by decide, C2_summaryRatios resultSpecA [resultSpecB] (by decide)⟩

/-- C7: the UTF-8 byte size is at least the character count, with equality on
pure-ASCII content. -/
theorem C7_byteSizeVsCharCount (conteudo arquivo : String) :
    (processFileContent conteudo arquivo).caracteres
      ≤ (processFileContent conteudo arquivo).tamanhoArquivo ∧
    ((∀ c ∈ conteudo.data, c.toNat ≤ 0x7F) →
      (processFileContent conteudo arquivo).tamanhoArquivo
        = (processFileContent conteudo arquivo).caracteres) := by
  constructor
  · show utf16Length conteudo ≤ utf8ByteLength conteudo
    exact List.sum_le_sum (fun c _ => charUtf16Units_le_charUtf8Bytes c)
  · intro hascii
    show utf8ByteLength conteudo = utf16Length conteudo
    simp only [utf8ByteLength, utf16Length]
    congr 1
    apply List.map_congr_left
    intro c hc
    obtain ⟨h8, h16⟩ := char_ascii_sizes (hascii c hc)
    rw [h8, h16]

theorem C7_ascii_witness :
    (∀ c ∈ ("ab" : String).data, c.toNat ≤ 0x7F) ∧
    (processFileContent "ab" "f.js").tamanhoArquivo
      = (processFileContent "ab" "f.js").caracteres :=
  ⟨by decide, (C7_byteSizeVsCharCount "ab" "f.js").2 (by decide)⟩

/-- C8: when the unit executes but the later `readFileSync` throws, the run
still appends exactly one result, carrying the timing and memory figures, with
`fileStats` absent (`none`). -/
theorem C8_readFailureKeepsResult (env : ExecEnv) (name filePath : String)
    (results : List BenchmarkResult)
    (hacc : env.accessOk = true) (hexec : env.execThrows = false)
    (hread : env.readContent = none) :
    runBenchmark env name filePath results
      = results ++
          [{ name := name
             executionTime := ((env.endNs : ℚ) - (env.startNs : ℚ)) / 1000000
             memory := env.endMemory
             memoryDiff :=
               { rss := (env.endMemory.rss : Int) - (env.startMemory.rss : Int)
                 heapTotal := (env.endMemory.heapTotal : Int) - (env.startMemory.heapTotal : Int)
                 heapUsed := (env.endMemory.heapUsed : Int) - (env.startMemory.heapUsed : Int) }
             fileStats := none }] := by
  simp [runBenchmark, hacc, hexec, analyzeFile, hread]

theorem C8_readFailure_witness :
    envReadFail.accessOk = true ∧ envReadFail.execThrows = false ∧
    envReadFail.readContent = none ∧
    runBenchmark envReadFail "POO" "./poo.js" []
      = [] ++
          [{ name := "POO"
             executionTime := ((envReadFail.endNs : ℚ) - (envReadFail.startNs : ℚ)) / 1000000
             memory := envReadFail.endMemory
             memoryDiff :=
               { rss := (envReadFail.endMemory.rss : Int) - (envReadFail.startMemory.rss : Int)
                 heapTotal := (envReadFail.endMemory.heapTotal : Int)
                   - (envReadFail.startMemory.heapTotal : Int)
                 heapUsed := (envReadFail.endMemory.heapUsed : Int)
                   - (envReadFail.startMemory.heapUsed : Int) }
             fileStats := none }] :=
  ⟨rfl, rfl, rfl, C8_readFailureKeepsResult envReadFail "POO" "./poo.js" [] rfl rfl rfl⟩

/-- C9 (amended): zero renders with unit `B`, and for byte counts of absolute
value below `1024^4` the unit index stays within the table, so the unit is one
of B/KB/MB/GB and the mantissa is the base-1024 scaled value rounded to two
decimals; at or above `1024^4` the index leaves the table (see the
counterexample). -/
theorem C9_formatBytesUnit (bytes : Int) (hb : bytes.natAbs < 1024 ^ 4) :
    (formatBytes bytes).unit ∈ sizes ∧
    (bytes ≠ 0 →
      (formatBytes bytes).value
        = round2 ((bytes : ℚ) / (1024 : ℚ) ^ Nat.log 1024 bytes.natAbs)) := by
  by_cases h0 : bytes = 0
  · subst h0
    refine ⟨by simp [formatBytes, sizes], fun hne => absurd rfl hne⟩
  · have hne : bytes.natAbs ≠ 0 := by
      simpa [Int.natAbs_eq_zero] using h0
    have hlog : Nat.log 1024 bytes.natAbs < 4 := Nat.log_lt_of_lt_pow hne hb
    constructor
    · have hcase : Nat.log 1024 bytes.natAbs = 0 ∨ Nat.log 1024 bytes.natAbs = 1
          ∨ Nat.log 1024 bytes.natAbs = 2 ∨ Nat.log 1024 bytes.natAbs = 3 := by
        omega
      have hunit : (formatBytes bytes).unit
          = sizes.getD (Nat.log 1024 bytes.natAbs) "undefined" := by
        simp [formatBytes, h0]
      rw [hunit]
      rcases hcase with hc | hc | hc | hc <;> rw [hc] <;> decide
    · intro _
      simp [formatBytes, h0]

theorem C9_formatBytes_witness :
    ((5000 : Int).natAbs < 1024 ^ 4) ∧
    ((formatBytes 5000).unit ∈ sizes ∧
      ((5000 : Int) ≠ 0 →
        (formatBytes 5000).value
          = round2 (((5000 : Int) : ℚ) / (1024 : ℚ) ^ Nat.log 1024 (5000 : Int).natAbs))) :=
  ⟨by decide, C9_formatBytesUnit 5000 (by decide)⟩

/-- C9 counterexample: `2^41` bytes is at least `1024^4`, and there the
computed index `4` leaves the unit table: the rendered unit is the JavaScript
`undefined`, not one of B/KB/MB/GB — the claim's always-in-bounds statement is
false on the code. -/
theorem C9_counterexample :
    1024 ^ 4 ≤ ((2 : Int) ^ 41).natAbs ∧
    (formatBytes ((2 : Int) ^ 41)).unit = "undefined" ∧
    "undefined" ∉ sizes := by
  have habs : ((2 : Int) ^ 41).natAbs = 2 ^ 41 := by
    norm_num [Int.natAbs_pow]
  have hlog : Nat.log 1024 (((2 : Int) ^ 41).natAbs) = 4 := by
    rw [habs]
    exact Nat.log_eq_of_pow_le_of_lt_pow (by norm_num) (by norm_num)
  have hne : ((2 : Int) ^ 41) ≠ 0 := by positivity
  refine ⟨?_, ?_, by decide⟩
  · rw [habs]
    norm_num
  · have hunit : (formatBytes ((2 : Int) ^ 41)).unit
        = sizes.getD (Nat.log 1024 (((2 : Int) ^ 41).natAbs)) "undefined" := by
      simp [formatBytes, hne]
    rw [hunit, hlog]
    decide

/-- C3: a run whose artifact is inaccessible or whose unit throws reaches the
catch block of `runBenchmark`, so it appends nothing — the result list (and in
particular its length) is unchanged, and no exception escapes (the embedding
is a total function), leaving subsequent runs able to execute. -/
theorem C3_failedRunAppendsNothing (env : ExecEnv) (name filePath : String)
    (results : List BenchmarkResult)
    (hfail : env.accessOk = false ∨ env.execThrows = true) :
    runBenchmark env name filePath results = results ∧
    (runBenchmark env name filePath results).length = results.length := by
  have hrun : runBenchmark env name filePath results = results := by
    rcases hfail with hf | hf
    · simp [runBenchmark, hf]
    · simp [runBenchmark, hf]
  exact ⟨hrun, by rw [hrun]⟩

theorem C3_failedRun_witness :
    (envAccessFail.accessOk = false ∨ envAccessFail.execThrows = true) ∧
    (runBenchmark envAccessFail "Estruturado" "./estruturado.js" [] = [] ∧
      (runBenchmark envAccessFail "Estruturado" "./estruturado.js" []).length
        = ([] : List BenchmarkResult).length) :=
  ⟨Or.inl rfl,
    C3_failedRunAppendsNothing envAccessFail "Estruturado" "./estruturado.js" [] (Or.inl rfl)⟩

/-- C4: deleting the `require` cache entry before requiring forces the unit's
top-level code to be evaluated again on every benchmark of the same path,
whatever the prior cache state; two runs in a session evaluate it twice. -/
theorem C4_freshExecution (m : ModuleState) (p : String) :
    (freshRequire m p).evalCount p = m.evalCount p + 1 ∧
    (freshRequire (freshRequire m p) p).evalCount p = m.evalCount p + 2 := by
  have step : ∀ m' : ModuleState, (freshRequire m' p).evalCount p = m'.evalCount p + 1 := by
    intro m'
    have hnot : p ∉ m'.cache.filter (fun q => decide (q ≠ p)) := by
      simp [List.mem_filter]
    simp [freshRequire, requireLoad, hnot]
  exact ⟨step m, by rw [step, step]⟩

/-- C5: on an empty result list `showSummary` short-circuits to the
informational no-benchmarks report: it returns normally (the embedding is a
total function, no exception) and renders no ranking entries. -/
theorem C5_emptySummary : showSummary [] = SummaryReport.noBenchmarks := rfl

/-- C6: for any content the statistics satisfy
`totalLinhas = linhasCodigo + linhasVazias` (all counts are naturals, hence
non-negative), and the blank count is exactly the number of lines that are
empty after trimming leading and trailing whitespace. -/
theorem C6_lineStats (conteudo arquivo : String) :
    (processFileContent conteudo arquivo).totalLinhas
      = (processFileContent conteudo arquivo).linhasCodigo
        + (processFileContent conteudo arquivo).linhasVazias ∧
    (processFileContent conteudo arquivo).linhasVazias
      = ((splitOnChar '\n' conteudo).filter
          (fun linha => decide (trimLine linha = []))).length := by
  refine ⟨?_, rfl⟩
  have hle : ((splitOnChar '\n' conteudo).filter
      (fun linha => decide (trimLine linha = []))).length
      ≤ (splitOnChar '\n' conteudo).length :=
    List.length_filter_le _ _
  simp only [processFileContent]
  omega

/-- C10: splitting on the newline character always yields at least one line,
so `totalLinhas ≥ 1`; the empty string is reported as one total line, one
blank line and zero code lines. -/
theorem C10_atLeastOneLine (conteudo arquivo : String) :
    1 ≤ (processFileContent conteudo arquivo).totalLinhas ∧
    (processFileContent "" arquivo).totalLinhas = 1 ∧
    (processFileContent "" arquivo).linhasVazias = 1 ∧
    (processFileContent "" arquivo).linhasCodigo = 0 := by
  refine ⟨?_, rfl, rfl, rfl⟩
  simp only [processFileContent, splitOnChar]
  exact splitCharAux_length_pos '\n' conteudo.data []

end Comparador
